import Mathlib

/-!
Shallow embedding of the pgvector example notebook
(`examples/pgvector/pgvector.ipynb`): the `Element` table schema, the
L2-distance similarity queries (metadata-filtered, and recency-decayed),
the ingestion loop, the insert path and the print loops, together with
theorems about them.

Modelling conventions:
* an embedding is a `List ℝ`; the `pgvector` operator `l2_distance` is
  the Euclidean distance of the two vectors;
* timestamps are rationals measured in days, so `NOW() - date` is a
  rational number of days and `EXTRACT(DAY FROM …)` is its day field
  (truncation toward zero);
* SQL `NULL` is `Option.none`, and the SQL scalar operators used by the
  decayed query propagate `NULL` as in Postgres;
* the store is a list of rows plus the sequence counter backing the
  `id` primary key; `ORDER BY` is a stable merge sort, as the row order
  of `ORDER BY` over equal keys is taken to be the insertion order.
-/

namespace PGVector

/-- Constant `ADA_TOKEN_COUNT = 1536`, the fixed embedding dimensionality. -/
def ADA_TOKEN_COUNT : Nat := 1536

/-- A row of the `unstructured_elements` table: `id` primary key plus the
columns of the `Element` model. -/
structure Element where
  id : Nat
  embedding : List ℝ
  text : String
  category : String
  filename : String
  date : Option ℚ
  sent_to : List String
  sent_from : List String
  subject : String


/-- The column values supplied at insert time (everything except the
store-assigned `id`): the fields of `Element(text=…, …)` built in the
loading loop of the notebook. -/
structure Row where
  embedding : List ℝ
  text : String
  category : String
  filename : String
  date : Option ℚ
  sent_to : List String
  sent_from : List String
  subject : String


/-- Attach a store-assigned `id` to an inserted row. -/
def mkElement (i : Nat) (r : Row) : Element :=
  { id := i, embedding := r.embedding, text := r.text, category := r.category,
    filename := r.filename, date := r.date, sent_to := r.sent_to,
    sent_from := r.sent_from, subject := r.subject }

/-- The `pgvector` operator `l2_distance`: the Euclidean distance
`sqrt (Σ (uᵢ - vᵢ)²)` between two vectors. -/
noncomputable def l2_distance (u v : List ℝ) : ℝ :=
  Real.sqrt (((List.zipWith (fun a b => a - b) u v).map (fun x => x ^ 2)).sum)

/-- Postgres `EXTRACT(DAY FROM i)` on an interval of `x` days: the day
field of the interval, i.e. `x` truncated toward zero. -/
def extractDay (x : ℚ) : ℤ :=
  if 0 ≤ x then ⌊x⌋ else ⌈x⌉

/-- SQL subtraction `a - b` with `NULL` propagation (`NOW() - date`). -/
def sqlSub (a b : Option ℚ) : Option ℚ :=
  a.bind fun x => b.map fun y => x - y

/-- SQL `EXTRACT(DAY FROM i)` with `NULL` propagation. -/
def sqlExtractDay (i : Option ℚ) : Option ℤ :=
  i.map extractDay

/-- SQL multiplication with `NULL` propagation. -/
def sqlMul (a b : Option ℝ) : Option ℝ :=
  a.bind fun x => b.map fun y => x * y

/-- SQL `exp` with `NULL` propagation. -/
noncomputable def sqlExp (a : Option ℝ) : Option ℝ :=
  a.map Real.exp

/-- The scalar that the `exp` call of the decayed query computes when all
inputs are non-`NULL`: `exp (-decay_rate * age_days * dist)`.  Note the
distance is a factor of the *exponent*: in the notebook the multiplication
by `Element.embedding.l2_distance(vector)` happens inside `func.exp(...)`. -/
noncomputable def decayScoreExpr (decay_rate age dist : ℝ) : ℝ :=
  Real.exp (-decay_rate * age * dist)

/-- The `decay_score` label of the decayed query:
`exp( (-decay_rate * EXTRACT(DAY FROM (NOW() - date))) * l2_distance(embedding, q) )`,
with SQL `NULL` propagation. -/
noncomputable def decay_score (decay_rate : ℝ) (now : ℚ) (e : Element)
    (q : List ℝ) : Option ℝ :=
  sqlExp
    (sqlMul
      (sqlMul (some (-decay_rate))
        ((sqlExtractDay (sqlSub (some now) e.date)).map fun z => (z : ℝ)))
      (some (l2_distance e.embedding q)))

/-- The score formula as the specification words it (for comparison with
`decay_score`): `exp (-decay_rate * age_days) * d(embedding, q)`. -/
noncomputable def spec_decay_score (decay_rate : ℝ) (now : ℚ) (e : Element)
    (q : List ℝ) : Option ℝ :=
  (sqlExtractDay (sqlSub (some now) e.date)).map fun z =>
    Real.exp (-decay_rate * (z : ℝ)) * l2_distance e.embedding q

/-- The comparator behind `ORDER BY l2_distance(embedding, q) ASC`. -/
noncomputable def distLE (q : List ℝ) (a b : Element) : Bool :=
  decide (l2_distance a.embedding q ≤ l2_distance b.embedding q)

/-- The filtered nearest-neighbor query:
`WHERE category = c ORDER BY l2_distance(embedding, q) LIMIT K`. -/
noncomputable def filteredQuery (store : List Element) (c : String)
    (q : List ℝ) (K : Nat) : List Element :=
  ((store.filter fun e => e.category == c).mergeSort (distLE q)).take K

/-- One result row of the decayed query: the tuple
`(Element, Element.text, decay_score)` it selects. -/
noncomputable def selectRow (decay_rate : ℝ) (now : ℚ) (q : List ℝ)
    (e : Element) : Element × String × Option ℝ :=
  (e, e.text, decay_score decay_rate now e q)

/-- Comparator for `ORDER BY decay_score DESC` on possibly-`NULL` scores:
Postgres sorts descending with `NULLS FIRST`. -/
noncomputable def scoreDescLE (a b : Option ℝ) : Bool :=
  match a, b with
  | none, _ => true
  | some _, none => false
  | some x, some y => decide (y ≤ x)

/-- The row-level `ORDER BY decay_score DESC` comparator. -/
noncomputable def rowDescLE (r s : Element × String × Option ℝ) : Bool :=
  scoreDescLE r.2.2 s.2.2

/-- The decayed query before `LIMIT`: all selected rows sorted by
`decay_score DESC`. -/
noncomputable def decayedSorted (store : List Element) (decay_rate : ℝ)
    (now : ℚ) (q : List ℝ) : List (Element × String × Option ℝ) :=
  (store.map (selectRow decay_rate now q)).mergeSort rowDescLE

/-- The decayed nearest-neighbor query:
`SELECT Element, text, decay_score ORDER BY decay_score DESC LIMIT K`. -/
noncomputable def decayedQuery (store : List Element) (decay_rate : ℝ)
    (now : ℚ) (q : List ℝ) (K : Nat) : List (Element × String × Option ℝ) :=
  (decayedSorted store decay_rate now q).take K

/-- The backing store: the rows of `unstructured_elements` plus the
sequence counter behind the `id` primary key. -/
structure Store where
  nextId : Nat
  rows : List Element

/-- The `pgvector` dimension check of the `Vector(ADA_TOKEN_COUNT)`
column. -/
def dimensionOk (r : Row) : Bool :=
  r.embedding.length == ADA_TOKEN_COUNT

/-- Modelled from the spec: the bulk-insert path of the backing store
(`session.add_all` + `session.commit` against the
`Vector(ADA_TOKEN_COUNT)` column; the enforcement of the declared
dimensionality lives in the external `pgvector`/Postgres engine, not in
the notebook).  Each row receives the next sequential `id`; a row whose
embedding dimensionality differs from the deployment constant makes the
whole insert fail with a store error, producing no new store state. -/
def insert_all (s : Store) (items : List Row) : Except String Store :=
  if items.all dimensionOk then
    Except.ok
      ⟨s.nextId + items.length,
        s.rows ++ items.enum.map fun p => mkElement (s.nextId + p.1) p.2⟩
  else
    Except.error ("StoreError: expected " ++ toString ADA_TOKEN_COUNT
      ++ " dimensions")

/-- Retrieval of a stored row by primary key: `SELECT * WHERE id = i`. -/
def getById (rows : List Element) (i : Nat) : Option Element :=
  rows.find? fun e => e.id == i

/-- Path join, as in `os.path.join(EXAMPLE_DOCS_DIRECTORY, f)`. -/
def joinPath (dir f : String) : String :=
  dir ++ ("/") ++ f

/-- The ingestion loop of the notebook: for each directory entry, skip it
unless its name ends with `.eml`, otherwise extend the accumulated list
with the output of the partitioner for that file. -/
def ingestLoop {E : Type} (dir : String) (partition_email : String → List E) :
    List String → List E → List E
  | [], acc => acc
  | f :: fs, acc =>
    if f.endsWith (".eml") then
      ingestLoop dir partition_email fs (acc ++ partition_email (joinPath dir f))
    else
      ingestLoop dir partition_email fs acc

/-- The print loop of the filtered query: one `(element.id, element.text)`
line per result row. -/
def printFilteredLoop : List Element → List (Nat × String)
  | [] => []
  | e :: rest => (e.id, e.text) :: printFilteredLoop rest

/-- The print loop of the decayed query: one
`(element.decay_score, element.text)` line per result row. -/
def printDecayedLoop : List (Element × String × Option ℝ) → List (Option ℝ × String)
  | [] => []
  | r :: rest => (r.2.2, r.2.1) :: printDecayedLoop rest

theorem decay_score_none {decay_rate : ℝ} {now : ℚ} {e : Element} {q : List ℝ}
    (h : e.date = none) : decay_score decay_rate now e q = none := by
  simp [decay_score, sqlExp, sqlMul, sqlExtractDay, sqlSub, h]

theorem decay_score_some {decay_rate : ℝ} {now : ℚ} {e : Element} {q : List ℝ}
    {d : ℚ} (h : e.date = some d) :
    decay_score decay_rate now e q =
      some (decayScoreExpr decay_rate (extractDay (now - d) : ℤ)
        (l2_distance e.embedding q)) := by
  simp [decay_score, sqlExp, sqlMul, sqlExtractDay, sqlSub, h, decayScoreExpr,
    mul_assoc]

theorem l2_distance_nonneg (u v : List ℝ) : 0 ≤ l2_distance u v :=
  Real.sqrt_nonneg _

theorem l2_distance_self (u : List ℝ) : l2_distance u u = 0 := by
  simp [l2_distance, List.zipWith_same]

theorem distLE_trans (q : List ℝ) :
    ∀ a b c : Element, distLE q a b → distLE q b c → distLE q a c := by
  intro a b c hab hbc
  simp only [distLE, decide_eq_true_eq] at hab hbc ⊢
  exact le_trans hab hbc

theorem distLE_total (q : List ℝ) :
    ∀ a b : Element, distLE q a b || distLE q b a := by
  intro a b
  simp only [distLE, Bool.or_eq_true, decide_eq_true_eq]
  exact le_total _ _

theorem scoreDescLE_trans :
    ∀ a b c : Option ℝ, scoreDescLE a b → scoreDescLE b c → scoreDescLE a c := by
  intro a b c hab hbc
  cases a <;> cases b <;> cases c <;>
    simp only [scoreDescLE, decide_eq_true_eq] at hab hbc ⊢ <;>
    first
      | trivial
      | exact hab.elim
      | exact hbc.elim
      | exact le_trans hbc hab

theorem rowDescLE_trans :
    ∀ a b c : Element × String × Option ℝ,
      rowDescLE a b → rowDescLE b c → rowDescLE a c :=
  fun _ _ _ => scoreDescLE_trans _ _ _

theorem scoreDescLE_total :
    ∀ a b : Option ℝ, scoreDescLE a b || scoreDescLE b a := by
  intro a b
  cases a <;> cases b <;>
    simp only [scoreDescLE, Bool.or_eq_true, decide_eq_true_eq] <;>
    first
      | trivial
      | exact le_total _ _

theorem rowDescLE_total :
    ∀ a b : Element × String × Option ℝ, rowDescLE a b || rowDescLE b a :=
  fun _ _ => scoreDescLE_total _ _

/-- C3: the filtered nearest-neighbor query returns only Elements whose
category equals the filter value, in ascending order of L2 distance to the
query vector, and returns at most `K` rows. -/
theorem filteredQuery_correct (store : List Element) (c : String) (q : List ℝ)
    (K : Nat) :
    (∀ e ∈ filteredQuery store c q K, e.category = c) ∧
    (filteredQuery store c q K).Pairwise
      (fun a b => l2_distance a.embedding q ≤ l2_distance b.embedding q) ∧
    (filteredQuery store c q K).length ≤ K := by
  refine ⟨?_, ?_, ?_⟩
  · intro e he
    have h1 : e ∈ (store.filter fun x => x.category == c).mergeSort (distLE q) :=
      (List.take_sublist _ _).subset he
    have h2 := (List.mem_filter.mp (List.mem_mergeSort.mp h1)).2
    exact eq_of_beq h2
  · have hs : ((store.filter fun x => x.category == c).mergeSort
        (distLE q)).Pairwise (fun a b => distLE q a b) :=
      List.sorted_mergeSort (distLE_trans q) (distLE_total q) _
    have ht := hs.sublist (List.take_sublist K _)
    exact ht.imp fun h => by
      simp only [distLE, decide_eq_true_eq] at h
      exact h
  · exact List.length_take_le K _

def E3a : Element :=
  ⟨1, [0], "narrative one", "NarrativeText", "a.eml", some 0, [], [], "s"⟩

def E3b : Element :=
  ⟨2, [1], "title one", "Title", "a.eml", some 0, [], [], "s"⟩

def q3 : List ℝ := [0]

theorem filteredQuery_correct_witness :
    E3a ∈ filteredQuery [E3a, E3b] ("NarrativeText") q3 5 ∧
    E3a.category = "NarrativeText" := by
  have hq : filteredQuery [E3a, E3b] ("NarrativeText") q3 5 = [E3a] := by
    simp [filteredQuery, E3a, E3b]
  have hmem : E3a ∈ filteredQuery [E3a, E3b] ("NarrativeText") q3 5 := by
    rw [hq]; exact List.mem_singleton.mpr rfl
  exact ⟨hmem,
    (filteredQuery_correct [E3a, E3b] ("NarrativeText") q3 5).1 E3a hmem⟩

/-- C4: for a query vector equal to the embedding of a stored Element,
the L2 distance of that Element is `0`, and — the `id`s of stored rows being
distinct and no earlier row of the filtered category tying at distance
`0` (ties break by stable input order) — it is the first row the filtered
query returns. -/
theorem filteredQuery_exact_match_first (pre post : List Element) (e : Element)
    (c : String) (q : List ℝ) (K : Nat)
    (hnodup : (pre ++ e :: post).Nodup)
    (hcat : e.category = c)
    (hq : q = e.embedding)
    (hpre : ∀ x ∈ pre, x.category = c → l2_distance x.embedding q ≠ 0)
    (hK : 1 ≤ K) :
    l2_distance e.embedding q = 0 ∧
    (filteredQuery (pre ++ e :: post) c q K).head? = some e := by
  have hdist : l2_distance e.embedding q = 0 := by
    rw [hq]; exact l2_distance_self _
  refine ⟨hdist, ?_⟩
  have hpe : (fun x : Element => x.category == c) e = true := by simp [hcat]
  have heF : e ∈ (pre ++ e :: post).filter fun x => x.category == c :=
    List.mem_filter.mpr ⟨List.mem_append_right _ (List.mem_cons_self _ _), hpe⟩
  have heL : e ∈ ((pre ++ e :: post).filter fun x => x.category == c).mergeSort
      (distLE q) := List.mem_mergeSort.mpr heF
  obtain ⟨h₀, t, hLc⟩ : ∃ h₀ t,
      ((pre ++ e :: post).filter fun x => x.category == c).mergeSort (distLE q)
        = h₀ :: t := by
    cases hc : ((pre ++ e :: post).filter fun x => x.category == c).mergeSort
        (distLE q) with
    | nil => rw [hc] at heL; cases heL
    | cons a t => exact ⟨a, t, rfl⟩
  have hFnd : ((pre ++ e :: post).filter fun x => x.category == c).Nodup :=
    hnodup.filter _
  have hLnd : (((pre ++ e :: post).filter fun x => x.category == c).mergeSort
      (distLE q)).Nodup :=
    (List.mergeSort_perm _ (distLE q)).symm.nodup hFnd
  have hsort : (((pre ++ e :: post).filter fun x => x.category == c).mergeSort
      (distLE q)).Pairwise (fun a b => distLE q a b) :=
    List.sorted_mergeSort (distLE_trans q) (distLE_total q) _
  have hFsplit : ((pre ++ e :: post).filter fun x => x.category == c)
      = (pre.filter fun x => x.category == c) ++
        e :: (post.filter fun x => x.category == c) := by
    simp [List.filter_append, List.filter_cons, hpe]
  have hmain : h₀ = e := by
    by_cases heq : h₀ = e
    · exact heq
    · exfalso
      have heT : e ∈ t := by
        rcases List.mem_cons.mp (hLc ▸ heL) with h | h
        · exact absurd h.symm heq
        · exact h
      have hle : distLE q h₀ e := (List.pairwise_cons.mp (hLc ▸ hsort)).1 e heT
      have hd0 : l2_distance h₀.embedding q = 0 := by
        have h1 : l2_distance h₀.embedding q ≤ l2_distance e.embedding q := by
          simpa [distLE, decide_eq_true_eq] using hle
        have h2 := l2_distance_nonneg h₀.embedding q
        rw [hdist] at h1
        exact le_antisymm h1 h2
      have h₀F : h₀ ∈ (pre ++ e :: post).filter fun x => x.category == c :=
        (List.mergeSort_perm _ (distLE q)).subset
          (hLc ▸ List.mem_cons_self h₀ t)
      rw [hFsplit] at h₀F
      rcases List.mem_append.mp h₀F with hp' | hp'
      · obtain ⟨hmem, hcat'⟩ := List.mem_filter.mp hp'
        exact hpre h₀ hmem (by simpa using hcat') hd0
      · rcases List.mem_cons.mp hp' with h | hpost'
        · exact heq h
        · have hsubF : List.Sublist [e, h₀]
              ((pre ++ e :: post).filter fun x => x.category == c) := by
            rw [hFsplit]
            have h1 : List.Sublist [e, h₀]
                (e :: (post.filter fun x => x.category == c)) :=
              (List.singleton_sublist.mpr hpost').cons₂ e
            exact h1.trans (List.sublist_append_right _ _)
          have hab : distLE q e h₀ = true := by
            simp [distLE, hdist, l2_distance_nonneg]
          have hsubL := List.pair_sublist_mergeSort (distLE_trans q)
            (distLE_total q) hab hsubF
          rw [hLc] at hsubL
          rcases List.sublist_cons_iff.mp hsubL with h | ⟨r, hr, -⟩
          · have h₀t : h₀ ∈ t := h.subset (by simp)
            have hnd2 : (h₀ :: t).Nodup := hLc ▸ hLnd
            exact (List.nodup_cons.mp hnd2).1 h₀t
          · exact heq (by injection hr with h1 h2; exact h1.symm)
  obtain ⟨K', rfl⟩ : ∃ K', K = K' + 1 :=
    ⟨K - 1, (Nat.succ_pred_eq_of_pos hK).symm⟩
  unfold filteredQuery
  rw [hLc, hmain]
  simp

def E4a : Element :=
  ⟨1, [0, 0], "matching element", "NarrativeText", "a.eml", some 0, [], [], "s"⟩

def E4b : Element :=
  ⟨2, [3, 4], "other element", "NarrativeText", "a.eml", some 0, [], [], "s"⟩

theorem filteredQuery_exact_match_first_witness :
    l2_distance E4a.embedding E4a.embedding = 0 ∧
    (filteredQuery ([] ++ E4a :: [E4b]) ("NarrativeText") E4a.embedding 5).head?
      = some E4a := by
  have hnd : ([] ++ E4a :: [E4b]).Nodup := by
    refine List.Pairwise.cons ?_ (List.pairwise_singleton _ _)
    intro b hb
    rw [List.mem_singleton] at hb
    subst hb
    intro hEq
    have h := congrArg Element.id hEq
    simp [E4a, E4b] at h
  exact filteredQuery_exact_match_first [] [E4b] E4a ("NarrativeText")
    E4a.embedding 5 hnd rfl rfl (by simp) (by decide)

def E1c : Element :=
  ⟨1, [0], "poem line", "NarrativeText", "a.eml", some 0, [], [], "s"⟩

def q1c : List ℝ := [0]

/-- C1 (counterexample): at decay rate `1`, age one day and distance `0`,
the `decay_score` of the reference query is `exp 0 = 1`, while the claimed
formula `exp (-λ·age_days) · d` gives `exp (-1) · 0 = 0`: the query does
not compute the claimed composite score. -/
theorem decay_score_ne_spec_formula :
    decay_score 1 1 E1c q1c = some 1 ∧
    spec_decay_score 1 1 E1c q1c = some 0 ∧
    decay_score 1 1 E1c q1c ≠ spec_decay_score 1 1 E1c q1c := by
  have hd : l2_distance E1c.embedding q1c = 0 := l2_distance_self _
  have h1 : decay_score 1 1 E1c q1c = some 1 := by
    rw [decay_score_some (show E1c.date = some 0 from rfl)]
    simp [decayScoreExpr, hd]
  have h2 : spec_decay_score 1 1 E1c q1c = some 0 := by
    simp [spec_decay_score, sqlExtractDay, sqlSub, E1c, q1c, l2_distance_self]
  refine ⟨h1, h2, ?_⟩
  rw [h1, h2]
  simp

/-- C1 (amended): every row the decayed query returns is a stored Element
with its text and the score `exp (-decay_rate * age_days * l2_distance)`
(`NULL` when `date` is `NULL`); the rows come out sorted by that score
descending (`NULL`s first), there are `min K |store|` of them, and every
score of every returned row is at least the score of every row the `LIMIT`
cut off. -/
theorem decayedQuery_correct (store : List Element) (decay_rate : ℝ)
    (now : ℚ) (q : List ℝ) (K : Nat) :
    (∀ r ∈ decayedQuery store decay_rate now q K,
      r.1 ∈ store ∧ r.2.1 = r.1.text ∧
      r.2.2 = decay_score decay_rate now r.1 q ∧
      ∀ d : ℚ, r.1.date = some d →
        r.2.2 = some (Real.exp (-decay_rate * (extractDay (now - d) : ℤ) *
          l2_distance r.1.embedding q))) ∧
    (decayedQuery store decay_rate now q K).Pairwise
      (fun r s => scoreDescLE r.2.2 s.2.2) ∧
    (decayedQuery store decay_rate now q K).length = min K store.length ∧
    (∀ r ∈ decayedQuery store decay_rate now q K,
      ∀ s ∈ (decayedSorted store decay_rate now q).drop K,
        scoreDescLE r.2.2 s.2.2) := by
  have hp : (decayedSorted store decay_rate now q).Pairwise
      (fun r s => scoreDescLE r.2.2 s.2.2) :=
    List.sorted_mergeSort rowDescLE_trans rowDescLE_total _
  refine ⟨?_, ?_, ?_, ?_⟩
  · intro r hr
    have h1 : r ∈ decayedSorted store decay_rate now q :=
      (List.take_sublist _ _).subset hr
    have h2 : r ∈ store.map (selectRow decay_rate now q) :=
      List.mem_mergeSort.mp h1
    obtain ⟨e, he, rfl⟩ := List.mem_map.mp h2
    refine ⟨he, rfl, rfl, ?_⟩
    intro d hd
    simp only [selectRow] at hd ⊢
    rw [decay_score_some hd]
    rfl
  · exact hp.sublist (List.take_sublist _ _)
  · have hlen : (decayedSorted store decay_rate now q).length = store.length := by
      rw [decayedSorted, List.length_mergeSort, List.length_map]
    rw [decayedQuery, List.length_take, hlen]
  · have hsplit := List.pairwise_append.mp (by
      rw [List.take_append_drop
        K (decayedSorted store decay_rate now q)]
      exact hp)
    exact fun r hr s hs => hsplit.2.2 r hr s hs

def E1w : Element :=
  ⟨1, [0], "witness text", "NarrativeText", "a.eml", some 0, [], [], "s"⟩

def q1w : List ℝ := [1]

theorem decayedQuery_correct_witness :
    (selectRow 1 1 q1w E1w).2.2 =
      some (Real.exp (-1 * (extractDay ((1 : ℚ) - 0) : ℤ) *
        l2_distance E1w.embedding q1w)) := by
  have hres : decayedQuery [E1w] 1 1 q1w 5 = [selectRow 1 1 q1w E1w] := by
    simp [decayedQuery, decayedSorted]
  have hmem : selectRow 1 1 q1w E1w ∈ decayedQuery [E1w] 1 1 q1w 5 := by
    rw [hres]; exact List.mem_singleton.mpr rfl
  exact ((decayedQuery_correct [E1w] 1 1 q1w 5).1 _ hmem).2.2.2 0 rfl

def Ec0 : Element :=
  ⟨1, [0], "near element", "NarrativeText", "a.eml", some 0, [], [], "s"⟩

def Ec1 : Element :=
  ⟨2, [1], "far element", "NarrativeText", "a.eml", some 0, [], [], "s"⟩

def qc : List ℝ := [0]

/-- C2 (counterexample): at decay rate `1` and fixed age one day, raising
the distance from `0` to `1` lowers the score of the reference query from `1`
to `exp (-1) < 1`: the score is not monotonically non-decreasing in the
distance. -/
theorem decay_score_not_monotone_in_distance :
    l2_distance Ec0.embedding qc = 0 ∧
    l2_distance Ec1.embedding qc = 1 ∧
    decay_score 1 1 Ec0 qc = some 1 ∧
    decay_score 1 1 Ec1 qc = some (Real.exp (-1)) ∧
    Real.exp (-1) < 1 := by
  have hd0 : l2_distance Ec0.embedding qc = 0 := l2_distance_self _
  have hsq : ((1 : ℝ) - 0) ^ 2 = 1 := by norm_num
  have hd1 : l2_distance Ec1.embedding qc = 1 := by
    simp [l2_distance, qc, Ec1, hsq]
  have hext : extractDay ((1 : ℚ) - 0) = 1 := by
    rw [extractDay, if_pos (by norm_num)]
    norm_num
  refine ⟨hd0, hd1, ?_, ?_, ?_⟩
  · rw [decay_score_some (show Ec0.date = some 0 from rfl)]
    simp [decayScoreExpr, hd0]
  · rw [decay_score_some (show Ec1.date = some 0 from rfl)]
    rw [hext, hd1, decayScoreExpr]
    norm_num
  · exact Real.exp_lt_one_iff.mpr (by norm_num)

/-- C2 (amended): with decay rate `λ > 0`, the score
`exp (-λ · age_days · dist)` of the reference query is monotonically
non-increasing in `age_days` for fixed non-negative distance, and
monotonically non-increasing (not non-decreasing) in the distance for
fixed non-negative age; L2 distances are always non-negative. -/
theorem decayScoreExpr_monotone (decay_rate : ℝ) (hl : 0 < decay_rate) :
    (∀ u v : List ℝ, 0 ≤ l2_distance u v) ∧
    (∀ a a' d : ℝ, 0 ≤ d → a ≤ a' →
      decayScoreExpr decay_rate a' d ≤ decayScoreExpr decay_rate a d) ∧
    (∀ a d d' : ℝ, 0 ≤ a → d ≤ d' →
      decayScoreExpr decay_rate a d' ≤ decayScoreExpr decay_rate a d) := by
  refine ⟨l2_distance_nonneg, ?_, ?_⟩
  · intro a a' d hd haa
    rw [decayScoreExpr, decayScoreExpr, Real.exp_le_exp]
    nlinarith [mul_nonneg (mul_nonneg hl.le hd) (sub_nonneg.mpr haa)]
  · intro a d d' ha hdd
    rw [decayScoreExpr, decayScoreExpr, Real.exp_le_exp]
    nlinarith [mul_nonneg (mul_nonneg hl.le ha) (sub_nonneg.mpr hdd)]

theorem decayScoreExpr_monotone_witness :
    0 ≤ l2_distance [0] [1] ∧
    decayScoreExpr 1 1 1 ≤ decayScoreExpr 1 0 1 ∧
    decayScoreExpr 1 1 2 ≤ decayScoreExpr 1 1 1 := by
  obtain ⟨h1, h2, h3⟩ := decayScoreExpr_monotone 1 one_pos
  exact ⟨h1 [0] [1], h2 0 1 1 zero_le_one zero_le_one,
    h3 1 1 2 zero_le_one one_le_two⟩

/-- C9: the expression `EXTRACT(DAY FROM (NOW() - date))` truncates to whole elapsed
days, so an Element dated less than one whole day before now has exponent
`0` and decay score `exp 0 = 1` whatever its distance; `1` is the maximum
score over all non-future-dated Elements; an Element at least one whole
day old with positive distance scores strictly below `1`; and in the
score-descending order no row at or before a score-`1` row can score
below `1` — so every fresh row ranks above every such older row. -/
theorem decayed_fresh_rows_rank_first (store : List Element)
    (decay_rate : ℝ) (now : ℚ) (q : List ℝ) (hl : 0 < decay_rate) :
    (∀ e : Element, ∀ d : ℚ, e.date = some d → 0 ≤ now - d → now - d < 1 →
      decay_score decay_rate now e q = some 1) ∧
    (∀ e : Element, ∀ d : ℚ, e.date = some d → 0 ≤ now - d →
      ∀ s : ℝ, decay_score decay_rate now e q = some s → s ≤ 1) ∧
    (∀ e : Element, ∀ d : ℚ, e.date = some d → 1 ≤ now - d →
      0 < l2_distance e.embedding q →
      ∀ s : ℝ, decay_score decay_rate now e q = some s → s < 1) ∧
    (∀ i j : Nat, ∀ hi : i < (decayedSorted store decay_rate now q).length,
      ∀ hj : j < (decayedSorted store decay_rate now q).length, i ≤ j →
      ((decayedSorted store decay_rate now q).get ⟨j, hj⟩).2.2 = some 1 →
      ∀ s : ℝ,
        ((decayedSorted store decay_rate now q).get ⟨i, hi⟩).2.2 = some s →
        1 ≤ s) := by
  refine ⟨?_, ?_, ?_, ?_⟩
  · intro e d hdate h0 h1
    have hext : extractDay (now - d) = 0 := by
      rw [extractDay, if_pos h0]
      exact Int.floor_eq_zero_iff.mpr ⟨h0, h1⟩
    rw [decay_score_some hdate, hext]
    simp [decayScoreExpr]
  · intro e d hdate h0 s hs
    rw [decay_score_some hdate] at hs
    have hage : (0 : ℝ) ≤ ((extractDay (now - d) : ℤ) : ℝ) := by
      have : (0 : ℤ) ≤ extractDay (now - d) := by
        rw [extractDay, if_pos h0]
        exact Int.floor_nonneg.mpr h0
      exact_mod_cast this
    have hdist := l2_distance_nonneg e.embedding q
    have hs' : s = decayScoreExpr decay_rate ((extractDay (now - d) : ℤ) : ℝ)
        (l2_distance e.embedding q) := by
      injection hs.symm
    rw [hs', decayScoreExpr, Real.exp_le_one_iff]
    nlinarith [mul_nonneg (mul_nonneg hl.le hage) hdist]
  · intro e d hdate h1 hdist s hs
    rw [decay_score_some hdate] at hs
    have hage : (1 : ℝ) ≤ ((extractDay (now - d) : ℤ) : ℝ) := by
      have : (1 : ℤ) ≤ extractDay (now - d) := by
        rw [extractDay, if_pos (le_trans zero_le_one h1)]
        exact Int.le_floor.mpr (by exact_mod_cast h1)
      exact_mod_cast this
    have hs' : s = decayScoreExpr decay_rate ((extractDay (now - d) : ℤ) : ℝ)
        (l2_distance e.embedding q) := by
      injection hs.symm
    rw [hs', decayScoreExpr, Real.exp_lt_one_iff]
    nlinarith [mul_pos (mul_pos hl (lt_of_lt_of_le one_pos hage)) hdist]
  · intro i j hi hj hij hj1 s hsi
    have hp : (decayedSorted store decay_rate now q).Pairwise
        (fun r s => rowDescLE r s) :=
      List.sorted_mergeSort rowDescLE_trans rowDescLE_total _
    rcases Nat.lt_or_ge i j with hlt | hge
    · have hr := List.pairwise_iff_get.mp hp ⟨i, hi⟩ ⟨j, hj⟩ hlt
      rw [rowDescLE, hj1, hsi] at hr
      simpa [scoreDescLE, decide_eq_true_eq] using hr
    · have hij' : i = j := le_antisymm hij hge
      subst hij'
      rw [hj1] at hsi
      injection hsi with h
      rw [h]

def E9f : Element :=
  ⟨1, [0], "fresh element", "NarrativeText", "a.eml", some (19 / 2), [], [], "s"⟩

def E9o : Element :=
  ⟨2, [1], "old element", "NarrativeText", "a.eml", some 0, [], [], "s"⟩

def q9 : List ℝ := [0]

theorem decayed_fresh_rows_rank_first_witness :
    decay_score 1 10 E9f q9 = some 1 ∧ Real.exp (-1 * 10 * 1) < 1 := by
  obtain ⟨ha, -, hc, -⟩ :=
    decayed_fresh_rows_rank_first [E9f, E9o] 1 10 q9 one_pos
  have hd1 : l2_distance E9o.embedding q9 = 1 := by
    have hsq : ((1 : ℝ) - 0) ^ 2 = 1 := by norm_num
    simp [l2_distance, E9o, q9, hsq]
  have hext : extractDay ((10 : ℚ) - 0) = 10 := by
    rw [extractDay, if_pos (by norm_num)]
    rw [show ((10 : ℚ) - 0) = ((10 : ℤ) : ℚ) by norm_num]
    exact Int.floor_intCast 10
  have hscore : decay_score 1 10 E9o q9 = some (Real.exp (-1 * 10 * 1)) := by
    rw [decay_score_some (show E9o.date = some 0 from rfl), hext, hd1,
      decayScoreExpr]
    norm_num
  refine ⟨?_, ?_⟩
  · exact ha E9f (19 / 2) rfl (by norm_num) (by norm_num)
  · exact hc E9o 0 rfl (by norm_num) (by rw [hd1]; exact one_pos)
      (Real.exp (-1 * 10 * 1)) hscore

/-- C10: for a stored Element whose `date` is `NULL`, the score
expression of the decayed query evaluates to `NULL` (no numeric value): the `NULL`
propagates from `NOW() - date` through `EXTRACT`, the products and `exp`
into the selected `decay_score` column. -/
theorem decay_score_null_date (decay_rate : ℝ) (now : ℚ) (q : List ℝ)
    (e : Element) (h : e.date = none) :
    decay_score decay_rate now e q = none ∧
    (selectRow decay_rate now q e).2.2 = none :=
  ⟨decay_score_none h, decay_score_none h⟩

def E10 : Element :=
  ⟨1, [0], "undated element", "NarrativeText", "a.eml", none, [], [], "s"⟩

theorem decay_score_null_date_witness :
    decay_score 1 0 E10 q9 = none ∧ (selectRow 1 0 q9 E10).2.2 = none :=
  decay_score_null_date 1 0 q9 E10 rfl

/-- C5: a successful bulk insert preserves the invariant that every
stored embedding has the deployment dimensionality `ADA_TOKEN_COUNT`,
and a batch containing a row of any other dimensionality makes the
insert fail with a store error (no new store state is produced). -/
theorem insert_all_dimension (s : Store) (items : List Row) :
    (∀ s' : Store, insert_all s items = Except.ok s' →
      (∀ r ∈ s.rows, r.embedding.length = ADA_TOKEN_COUNT) →
      ∀ r ∈ s'.rows, r.embedding.length = ADA_TOKEN_COUNT) ∧
    (∀ it ∈ items, it.embedding.length ≠ ADA_TOKEN_COUNT →
      insert_all s items = Except.error ("StoreError: expected "
        ++ toString ADA_TOKEN_COUNT ++ " dimensions")) := by
  constructor
  · intro s' hok hold r hr
    rw [insert_all] at hok
    by_cases hall : items.all dimensionOk
    · rw [if_pos hall] at hok
      injection hok with hok
      subst hok
      rcases List.mem_append.mp hr with h | h
      · exact hold r h
      · obtain ⟨p, hp, rfl⟩ := List.mem_map.mp h
        have hmem : p.2 ∈ items := by
          have h2 : p.2 ∈ items.enum.map Prod.snd := List.mem_map_of_mem _ hp
          rwa [List.enum_map_snd] at h2
        have h3 := List.all_eq_true.mp hall p.2 hmem
        rw [dimensionOk] at h3
        exact eq_of_beq h3
    · rw [if_neg hall] at hok
      exact Except.noConfusion hok
  · intro it hit hbad
    have hnall : ¬(items.all dimensionOk = true) := by
      intro hall
      have h := List.all_eq_true.mp hall it hit
      rw [dimensionOk] at h
      exact hbad (eq_of_beq h)
    rw [insert_all, if_neg hnall]

def badRow : Row :=
  ⟨[0], "short embedding", "NarrativeText", "a.eml", some 0, [], [], "s"⟩

def S5 : Store := ⟨1, []⟩

theorem insert_all_dimension_witness :
    insert_all S5 [badRow] = Except.error ("StoreError: expected "
      ++ toString ADA_TOKEN_COUNT ++ " dimensions") :=
  (insert_all_dimension S5 [badRow]).2 badRow (List.mem_singleton.mpr rfl)
    (by simp [badRow, ADA_TOKEN_COUNT])

theorem find?_assign (base : Nat) (items : List Row) :
    ∀ (n i : Nat) (hi : i < items.length),
      (((items.enumFrom n).map fun p => mkElement (base + p.1) p.2).find?
          fun el => el.id == base + (n + i))
        = some (mkElement (base + (n + i)) (items.get ⟨i, hi⟩)) := by
  induction items with
  | nil =>
    intro n i hi
    exact absurd hi (Nat.not_lt_zero i)
  | cons r rest ih =>
    intro n i hi
    cases i with
    | zero =>
      rw [List.enumFrom_cons, List.map_cons]
      rw [List.find?_cons_of_pos _ (by simp [mkElement])]
      simp [mkElement]
    | succ i' =>
      have hi' : i' < rest.length := Nat.lt_of_succ_lt_succ hi
      rw [List.enumFrom_cons, List.map_cons]
      rw [List.find?_cons_of_neg _ (by
        simp only [mkElement, beq_iff_eq]
        omega)]
      have heq : base + (n + (i' + 1)) = base + ((n + 1) + i') := by omega
      rw [heq]
      exact ih (n + 1) i' hi'

/-- C6: round-trip — after a successful insert into a store whose row
`id`s are below the sequence counter, retrieving row `i` of the batch by
its assigned id (`nextId + i`) finds exactly that row, and the stored
text, category, embedding, filename, date, sent_to, sent_from and
subject are identical to the inserted values. -/
theorem insert_roundtrip (s : Store) (items : List Row) (s' : Store) (i : Nat)
    (hinv : ∀ r ∈ s.rows, r.id < s.nextId)
    (hok : insert_all s items = Except.ok s')
    (hi : i < items.length) :
    getById s'.rows (s.nextId + i)
      = some (mkElement (s.nextId + i) (items.get ⟨i, hi⟩)) ∧
    (mkElement (s.nextId + i) (items.get ⟨i, hi⟩)).text
      = (items.get ⟨i, hi⟩).text ∧
    (mkElement (s.nextId + i) (items.get ⟨i, hi⟩)).category
      = (items.get ⟨i, hi⟩).category ∧
    (mkElement (s.nextId + i) (items.get ⟨i, hi⟩)).embedding
      = (items.get ⟨i, hi⟩).embedding ∧
    (mkElement (s.nextId + i) (items.get ⟨i, hi⟩)).filename
      = (items.get ⟨i, hi⟩).filename ∧
    (mkElement (s.nextId + i) (items.get ⟨i, hi⟩)).date
      = (items.get ⟨i, hi⟩).date ∧
    (mkElement (s.nextId + i) (items.get ⟨i, hi⟩)).sent_to
      = (items.get ⟨i, hi⟩).sent_to ∧
    (mkElement (s.nextId + i) (items.get ⟨i, hi⟩)).sent_from
      = (items.get ⟨i, hi⟩).sent_from ∧
    (mkElement (s.nextId + i) (items.get ⟨i, hi⟩)).subject
      = (items.get ⟨i, hi⟩).subject := by
  refine ⟨?_, rfl, rfl, rfl, rfl, rfl, rfl, rfl, rfl⟩
  rw [insert_all] at hok
  by_cases hall : items.all dimensionOk
  · rw [if_pos hall] at hok
    injection hok with hok
    subst hok
    rw [getById, List.find?_append]
    have hnone : (s.rows.find? fun el => el.id == s.nextId + i) = none := by
      rw [List.find?_eq_none]
      intro x hx
      simp only [beq_iff_eq]
      have hlt := hinv x hx
      omega
    rw [hnone, Option.none_or]
    have h := find?_assign s.nextId items 0 i hi
    simp only [Nat.zero_add] at h
    rw [show items.enum = items.enumFrom 0 from rfl]
    exact h
  · rw [if_neg hall] at hok
    exact Except.noConfusion hok

def goodRow : Row :=
  ⟨List.replicate 1536 0, "good text", "NarrativeText", "a.eml", some 0, [], [], "s"⟩

def S6 : Store := ⟨0, []⟩

def S6ok : Store := ⟨1, [mkElement 0 goodRow]⟩

theorem insert_roundtrip_witness :
    getById S6ok.rows (S6.nextId + 0)
      = some (mkElement (S6.nextId + 0) ([goodRow].get ⟨0, by decide⟩)) := by
  have hcond : [goodRow].all dimensionOk = true := by
    simp only [List.all_cons, List.all_nil, Bool.and_true, dimensionOk]
    rw [show goodRow.embedding = List.replicate 1536 0 from rfl,
      List.length_replicate]
    rfl
  have hok : insert_all S6 [goodRow] = Except.ok S6ok := by
    rw [insert_all, if_pos hcond]
    rfl
  exact (insert_roundtrip S6 [goodRow] S6ok 0 (by simp [S6]) hok
    (by decide)).1

theorem ingestLoop_acc {E : Type} (dir : String) (pe : String → List E) :
    ∀ (files : List String) (acc : List E),
      ingestLoop dir pe files acc = acc ++ ingestLoop dir pe files [] := by
  intro files
  induction files with
  | nil => intro acc; simp [ingestLoop]
  | cons f fs ih =>
    intro acc
    by_cases h : f.endsWith (".eml")
    · simp only [ingestLoop, if_pos h]
      rw [ih (acc ++ pe (joinPath dir f)), ih ([] ++ pe (joinPath dir f))]
      simp [List.append_assoc]
    · simp only [ingestLoop, if_neg h]
      exact ih acc

/-- C7: the ingestion loop partitions exactly the directory entries whose
names end with the extension filter — a non-matching entry is skipped and
contributes no Elements — and the resulting Elements are the
concatenation of the partitioned outputs in directory-listing order. -/
theorem ingestLoop_correct {E : Type} (dir : String) (pe : String → List E)
    (files : List String) :
    (ingestLoop dir pe files [] =
      ((files.filter fun f => f.endsWith (".eml")).map
        fun f => pe (joinPath dir f)).flatten) ∧
    (∀ f : String, ingestLoop dir pe (f :: files) [] =
      if f.endsWith (".eml") then
        pe (joinPath dir f) ++ ingestLoop dir pe files []
      else ingestLoop dir pe files []) := by
  have hmain : ∀ fs : List String, ingestLoop dir pe fs [] =
      ((fs.filter fun f => f.endsWith (".eml")).map
        fun f => pe (joinPath dir f)).flatten := by
    intro fs
    induction fs with
    | nil => rfl
    | cons f fs ih =>
      by_cases h : f.endsWith (".eml")
      · simp only [ingestLoop, if_pos h, List.filter_cons, h, if_true,
          List.map_cons, List.flatten_cons]
        rw [ingestLoop_acc, ih]
        simp
      · simp only [ingestLoop, if_neg h, List.filter_cons, h]
        rw [ih]
        simp [h]
  refine ⟨hmain files, ?_⟩
  intro f
  by_cases h : f.endsWith (".eml")
  · rw [if_pos h]
    simp only [ingestLoop, if_pos h]
    rw [ingestLoop_acc]
    simp
  · rw [if_neg h]
    simp only [ingestLoop, if_neg h]

/-- C8 (amended): the print loop of the filtered query emits one
`(element.id, element.text)` pair per result row — with no score column —
and the print loop of the decayed query emits one `(decay_score, element.text)`
pair per result row — with no identifier. -/
theorem printLoops_shape (rows : List Element)
    (rrows : List (Element × String × Option ℝ)) :
    printFilteredLoop rows = rows.map (fun e => (e.id, e.text)) ∧
    (printFilteredLoop rows).length = rows.length ∧
    printDecayedLoop rrows = rrows.map (fun r => (r.2.2, r.2.1)) ∧
    (printDecayedLoop rrows).length = rrows.length := by
  have h1 : ∀ l : List Element,
      printFilteredLoop l = l.map fun e => (e.id, e.text) := by
    intro l
    induction l with
    | nil => rfl
    | cons e t ih => rw [printFilteredLoop, ih, List.map_cons]
  have h2 : ∀ l : List (Element × String × Option ℝ),
      printDecayedLoop l = l.map fun r => (r.2.2, r.2.1) := by
    intro l
    induction l with
    | nil => rfl
    | cons r t ih => rw [printDecayedLoop, ih, List.map_cons]
  exact ⟨h1 rows, by rw [h1 rows, List.length_map],
    h2 rrows, by rw [h2 rrows, List.length_map]⟩

def E8a : Element :=
  ⟨1, [0], "shared text", "NarrativeText", "a.eml", some 0, [], [], "s"⟩

def E8b : Element :=
  ⟨2, [0], "shared text", "NarrativeText", "a.eml", some 0, [], [], "s"⟩

/-- C8 (counterexample): a full decayed-query run over two stored
Elements that differ only in `id` prints two identical
`(decay_score, text)` lines: the printed rows are not
`(identifier, text, score)` tuples — the identifier is absent, so rows
with distinct identifiers are printed indistinguishably. -/
theorem printDecayed_drops_identifier :
    printDecayedLoop (decayedQuery [E8a, E8b] 1 0 q9 5) =
      [(some 1, "shared text"), (some 1, "shared text")] ∧
    E8a.id ≠ E8b.id := by
  have hext : extractDay ((0 : ℚ) - 0) = 0 := by
    rw [extractDay, if_pos (by norm_num)]
    norm_num
  have hs1 : decay_score 1 0 E8a q9 = some 1 := by
    rw [decay_score_some (show E8a.date = some 0 from rfl), hext,
      decayScoreExpr]
    norm_num
  have hs2 : decay_score 1 0 E8b q9 = some 1 := by
    rw [decay_score_some (show E8b.date = some 0 from rfl), hext,
      decayScoreExpr]
    norm_num
  have hsorted : decayedSorted [E8a, E8b] 1 0 q9 =
      [selectRow 1 0 q9 E8a, selectRow 1 0 q9 E8b] := by
    rw [decayedSorted, List.map_cons, List.map_cons, List.map_nil]
    apply List.mergeSort_of_sorted
    refine List.pairwise_cons.mpr ⟨?_, List.pairwise_singleton _ _⟩
    intro b hb
    rw [List.mem_singleton] at hb
    subst hb
    show rowDescLE (selectRow 1 0 q9 E8a) (selectRow 1 0 q9 E8b) = true
    rw [rowDescLE]
    have ha : (selectRow 1 0 q9 E8a).2.2 = some 1 := hs1
    have hb : (selectRow 1 0 q9 E8b).2.2 = some 1 := hs2
    rw [ha, hb]
    simp [scoreDescLE]
  constructor
  · rw [decayedQuery, hsorted]
    rw [List.take_of_length_le (by simp)]
    have ha : (selectRow 1 0 q9 E8a).2.2 = some 1 := hs1
    have hb : (selectRow 1 0 q9 E8b).2.2 = some 1 := hs2
    rw [printDecayedLoop, printDecayedLoop, printDecayedLoop, ha, hb]
    simp [selectRow, E8a, E8b]
  · simp [E8a, E8b]

end PGVector
